import Mathlib

/-!
Verification of the in-memory todo store and its HTTP handlers
(`src/main.go` of the TO-DO-LIST service).

The Go program keeps a global `map[int]Todo` together with an
auto-incrementing `nextID` counter, and exposes four handlers:
`getTodosHandler`, `createTodoHandler`, `updateTodoHandler`,
`deleteTodoHandler`.  Each handler is embedded here as a pure function
from the request data it actually reads (HTTP method string, decoded
JSON body, `id` query parameter) and the store state to the new store
state paired with the HTTP response.  Go `int` is modelled as `Int`
(ids issued by the program stay far below 2^63), the map as an
association list with unique-key semantics, and JSON values as a small
inductive type.
-/

namespace TodoApp

/-- Go struct `Todo` (`main.go` lines 12-16): id, title, completion status. -/
structure Todo where
  ID : Int
  Title : String
  Done : Bool
deriving DecidableEq, Repr

/-- Go struct `CreateTodoRequest` (`main.go` lines 19-21): input body for create. -/
structure CreateTodoRequest where
  Title : String
deriving DecidableEq, Repr

/-- JSON values, as far as this service produces or consumes them.
Object fields are ordered key/value pairs. -/
inductive Json where
  | null : Json
  | bool (b : Bool) : Json
  | num (n : Int) : Json
  | str (s : String) : Json
  | obj (fields : List (String × Json)) : Json

/-- The global state of `main.go` lines 24-26: the `todos` map (as an
association list from id to `Todo`) and the `nextID` counter. -/
structure Store where
  todos : List (Int × Todo)
  nextID : Int
deriving DecidableEq, Repr

/-- Initial state: empty map, `nextID = 1` (`main.go` lines 24-26). -/
def initStore : Store := ⟨[], 1⟩

/-- Go map read `todos[id]`: the value at key `k`, if present. -/
def mapGet (k : Int) : List (Int × Todo) → Option Todo
  | [] => none
  | (k', v) :: rest => if k' = k then some v else mapGet k rest

/-- Go map write `todos[k] = v`: replace the binding of `k`, or append it. -/
def mapSet (k : Int) (v : Todo) : List (Int × Todo) → List (Int × Todo)
  | [] => [(k, v)]
  | (k', v') :: rest =>
      if k' = k then (k, v) :: rest else (k', v') :: mapSet k v rest

/-- Go `delete(todos, k)`: remove every binding of key `k`. -/
def mapDel (k : Int) : List (Int × Todo) → List (Int × Todo)
  | [] => []
  | (k', v) :: rest =>
      if k' = k then mapDel k rest else (k', v) :: mapDel k rest

/-- Response body: either empty (status-only responses) or a JSON value
written by `json.NewEncoder(w).Encode`. -/
inductive Body where
  | empty : Body
  | json (j : Json) : Body

/-- An HTTP response as the handlers build it: status code and body. -/
structure Response where
  status : Nat
  body : Body

/-- JSON encoding of a `Todo` (struct tags `id`, `title`, `done`,
`main.go` lines 12-16). -/
def encodeTodo (t : Todo) : Json :=
  Json.obj [("id", Json.num t.ID), ("title", Json.str t.Title), ("done", Json.bool t.Done)]

/-- JSON encoding of the `todos` map: an object keyed by the decimal
string of each id (Go `encoding/json` writes map keys as strings,
sorted in string order). -/
def encodeTodos (l : List (Int × Todo)) : Json :=
  Json.obj ((l.map (fun p => (toString p.1, encodeTodo p.2))).mergeSort
    (fun a b => decide (a.1 ≤ b.1)))

/-- Minimal JSON string escaping (quote and backslash). -/
def escapeString (s : String) : String :=
  String.join (s.data.map (fun c =>
    if c = '"' then "\\\"" else if c = '\\' then "\\\\" else String.singleton c))

mutual

/-- Textual rendering of a JSON value, as `encoding/json` writes it. -/
def renderJson : Json → String
  | Json.null => "null"
  | Json.bool b => if b then "true" else "false"
  | Json.num n => toString n
  | Json.str s => "\"" ++ escapeString s ++ "\""
  | Json.obj fs => "\x7b" ++ renderFields fs ++ "\x7d"

/-- Comma-separated rendering of the fields of a JSON object. -/
def renderFields : List (String × Json) → String
  | [] => ""
  | [(k, v)] => "\"" ++ escapeString k ++ "\":" ++ renderJson v
  | (k, v) :: rest =>
      "\"" ++ escapeString k ++ "\":" ++ renderJson v ++ "," ++ renderFields rest

end

/-- Go `strconv.Atoi`: optional sign, then at least one decimal digit and
nothing else, with the result required to fit a 64-bit `int`
(out-of-range input makes `Atoi` return a non-nil error). -/
def digitsToNat : List Char → Nat → Option Nat
  | [], acc => some acc
  | c :: cs, acc =>
      if c.isDigit then digitsToNat cs (acc * 10 + (c.toNat - 48)) else none

/-- Go `strconv.Atoi` on a query-parameter string: `some n` exactly when
`Atoi` succeeds with value `n`. -/
def atoi (s : String) : Option Int :=
  let stripped : Bool × List Char :=
    match s.data with
    | '+' :: rest => (false, rest)
    | '-' :: rest => (true, rest)
    | cs => (false, cs)
  match stripped.2 with
  | [] => none
  | ds =>
      match digitsToNat ds 0 with
      | none => none
      | some n =>
          if stripped.1 then
            if n ≤ 2 ^ 63 then some (-(n : Int)) else none
          else
            if n ≤ 2 ^ 63 - 1 then some (n : Int) else none

/-- Whether a JSON object key selects the `Title` field of
`CreateTodoRequest`: Go `encoding/json` matches struct fields
case-insensitively (`strings.EqualFold`) against the `title` tag. -/
def titleKey (k : String) : Bool :=
  k.data.map Char.toLower == "title".data

/-- Go `json.Decode` of an object body into `CreateTodoRequest`, field by
field: keys matching `title` must hold a string (later keys overwrite
earlier ones), `null` leaves the field untouched, any other value is a
type error; keys not matching any field are ignored. -/
def decodeTitleFields : List (String × Json) → String → Option String
  | [], acc => some acc
  | (k, v) :: rest, acc =>
      if titleKey k then
        match v with
        | Json.str t => decodeTitleFields rest t
        | Json.null => decodeTitleFields rest acc
        | _ => none
      else decodeTitleFields rest acc

/-- Go `json.NewDecoder(r.Body).Decode(&req)` on a syntactically valid
JSON value: an object decodes field-wise starting from the zero value
(`Title = ""`), `null` leaves the zero value, any other top-level value
is a type error. -/
def decodeCreate : Json → Option CreateTodoRequest
  | Json.obj fs => (decodeTitleFields fs "").map (fun t => ⟨t⟩)
  | Json.null => some ⟨""⟩
  | _ => none

/-- Decode of the raw request body: `none` models an unreadable or
syntactically malformed body (including an empty body), which makes
`Decode` return an error. -/
def decodeBody (body : Option Json) : Option CreateTodoRequest :=
  body.bind decodeCreate

/-- Handler for `GET /todos` (`main.go` lines 30-41): no method check,
encode the whole map with status 200. -/
def getTodosHandler (_method : String) (s : Store) : Store × Response :=
  (s, ⟨200, Body.json (encodeTodos s.todos)⟩)

/-- Handler for `POST /todos/create` (`main.go` lines 45-81): 405 on a
non-POST method, 400 on a body that fails to decode, otherwise build
`Todo{nextID, title, false}`, store it under `nextID`, increment
`nextID`, and return the todo with status 200. -/
def createTodoHandler (method : String) (body : Option Json) (s : Store) :
    Store × Response :=
  if method ≠ "POST" then (s, ⟨405, Body.empty⟩)
  else
    match decodeBody body with
    | none => (s, ⟨400, Body.empty⟩)
    | some req =>
        let todo : Todo := ⟨s.nextID, req.Title, false⟩
        (⟨mapSet s.nextID todo s.todos, s.nextID + 1⟩,
         ⟨200, Body.json (encodeTodo todo)⟩)

/-- Handler for `PUT /todos/update` (`main.go` lines 85-127): 405 on a
non-PUT method, 400 on a missing/empty or non-integer `id` query
parameter, 404 when the id is absent from the map, otherwise set
`Done := true`, store the todo back under the same key, and return it
with status 200.  A missing query parameter reads as `""` (Go
`Query().Get`). -/
def updateTodoHandler (method : String) (idq : Option String) (s : Store) :
    Store × Response :=
  if method ≠ "PUT" then (s, ⟨405, Body.empty⟩)
  else
    let idStr := idq.getD ""
    if idStr = "" then (s, ⟨400, Body.empty⟩)
    else
      match atoi idStr with
      | none => (s, ⟨400, Body.empty⟩)
      | some id =>
          match mapGet id s.todos with
          | none => (s, ⟨404, Body.empty⟩)
          | some todo =>
              let todo' : Todo := { todo with Done := true }
              (⟨mapSet id todo' s.todos, s.nextID⟩,
               ⟨200, Body.json (encodeTodo todo')⟩)

/-- Handler for `DELETE /todos/delete` (`main.go` lines 131-168): 405 on
a non-DELETE method, 400 on a missing/empty or non-integer `id`, 404
when the id is absent, otherwise delete the entry and answer 204 with
no body. -/
def deleteTodoHandler (method : String) (idq : Option String) (s : Store) :
    Store × Response :=
  if method ≠ "DELETE" then (s, ⟨405, Body.empty⟩)
  else
    let idStr := idq.getD ""
    if idStr = "" then (s, ⟨400, Body.empty⟩)
    else
      match atoi idStr with
      | none => (s, ⟨400, Body.empty⟩)
      | some id =>
          match mapGet id s.todos with
          | none => (s, ⟨404, Body.empty⟩)
          | some _ => (⟨mapDel id s.todos, s.nextID⟩, ⟨204, Body.empty⟩)

/-- A request to one of the four registered routes (`main.go` lines
174-177), carrying the data its handler reads. -/
inductive Op where
  | list (method : String) : Op
  | create (method : String) (body : Option Json) : Op
  | update (method : String) (idq : Option String) : Op
  | delete (method : String) (idq : Option String) : Op

/-- Dispatch one request to its handler. -/
def step (s : Store) : Op → Store × Response
  | Op.list m => getTodosHandler m s
  | Op.create m b => createTodoHandler m b s
  | Op.update m q => updateTodoHandler m q s
  | Op.delete m q => deleteTodoHandler m q s

/-- Run a sequence of requests, threading the store state. -/
def run (s : Store) : List Op → Store
  | [] => s
  | op :: ops => run (step s op).1 ops

/-- Whether a request is a create that will succeed (POST method and a
body that decodes). -/
def createOk : Op → Bool
  | Op.create m b => m == "POST" && (decodeBody b).isSome
  | _ => false

/-- The ids returned by the successful create calls of a request
sequence, in order, starting from state `s`. -/
def issuedFrom (s : Store) : List Op → List Int
  | [] => []
  | op :: ops =>
      (if createOk op then [s.nextID] else []) ++ issuedFrom (step s op).1 ops

/-- A store state is reachable when some request sequence produces it
from the initial state. -/
def Reachable (s : Store) : Prop :=
  ∃ ops : List Op, run initStore ops = s

/-- Key coherence: every map entry is stored under its own id. -/
def KeyCoherent (s : Store) : Prop :=
  ∀ p ∈ s.todos, p.2.ID = p.1

/-- Counter dominance: every key of the map is below `nextID`. -/
def KeysBelow (s : Store) : Prop :=
  ∀ p ∈ s.todos, p.1 < s.nextID

/-! ### Lemmas about the map primitives -/

theorem mapGet_mapSet_self (k : Int) (v : Todo) (l : List (Int × Todo)) :
    mapGet k (mapSet k v l) = some v := by
  induction l with
  | nil => simp [mapSet, mapGet]
  | cons p rest ih =>
      obtain ⟨k', v'⟩ := p
      by_cases h : k' = k
      · subst h; simp [mapSet, mapGet]
      · simp [mapSet, mapGet, h, ih]

theorem mapGet_mapSet_ne (k k' : Int) (v : Todo) (l : List (Int × Todo))
    (hk : k' ≠ k) : mapGet k' (mapSet k v l) = mapGet k' l := by
  induction l with
  | nil => simp [mapSet, mapGet, Ne.symm hk]
  | cons p rest ih =>
      obtain ⟨k₀, v₀⟩ := p
      by_cases h : k₀ = k
      · subst h
        simp [mapSet, mapGet, Ne.symm hk]
      · simp [mapSet, mapGet, h, ih]

theorem mapSet_mapSet_self (k : Int) (v : Todo) (l : List (Int × Todo)) :
    mapSet k v (mapSet k v l) = mapSet k v l := by
  induction l with
  | nil => simp [mapSet]
  | cons p rest ih =>
      obtain ⟨k₀, v₀⟩ := p
      by_cases h : k₀ = k
      · subst h; simp [mapSet]
      · simp [mapSet, h, ih]

theorem mem_mapSet {p : Int × Todo} {k : Int} {v : Todo} {l : List (Int × Todo)}
    (hp : p ∈ mapSet k v l) : p = (k, v) ∨ p ∈ l := by
  induction l with
  | nil => simpa [mapSet] using hp
  | cons q rest ih =>
      obtain ⟨k₀, v₀⟩ := q
      by_cases h : k₀ = k
      · subst h
        rcases (by simpa [mapSet] using hp : p = (k₀, v) ∨ p ∈ rest) with h' | h'
        · exact Or.inl h'
        · exact Or.inr (List.mem_cons_of_mem _ h')
      · rcases (by simpa [mapSet, h] using hp : p = (k₀, v₀) ∨ p ∈ mapSet k v rest)
          with h' | h'
        · exact Or.inr (by simp [h'])
        · rcases ih h' with h'' | h''
          · exact Or.inl h''
          · exact Or.inr (List.mem_cons_of_mem _ h'')

theorem mapGet_some_mem {k : Int} {v : Todo} {l : List (Int × Todo)}
    (h : mapGet k l = some v) : (k, v) ∈ l := by
  induction l with
  | nil => simp [mapGet] at h
  | cons p rest ih =>
      obtain ⟨k₀, v₀⟩ := p
      by_cases hk : k₀ = k
      · subst hk
        simp only [mapGet, if_pos, Option.some.injEq] at h
        subst h; exact List.mem_cons_self _ _
      · simp only [mapGet, if_neg hk] at h
        exact List.mem_cons_of_mem _ (ih h)

theorem mem_mapDel {p : Int × Todo} {k : Int} {l : List (Int × Todo)}
    (hp : p ∈ mapDel k l) : p ∈ l ∧ p.1 ≠ k := by
  induction l with
  | nil => simp [mapDel] at hp
  | cons q rest ih =>
      obtain ⟨k₀, v₀⟩ := q
      by_cases h : k₀ = k
      · subst h
        rcases ih (by simpa [mapDel] using hp) with ⟨h1, h2⟩
        exact ⟨List.mem_cons_of_mem _ h1, h2⟩
      · rcases (by simpa [mapDel, h] using hp : p = (k₀, v₀) ∨ p ∈ mapDel k rest)
          with h' | h'
        · exact ⟨by simp [h'], by simp [h', h]⟩
        · rcases ih h' with ⟨h1, h2⟩
          exact ⟨List.mem_cons_of_mem _ h1, h2⟩

theorem mapGet_mapDel (k k' : Int) (l : List (Int × Todo)) :
    mapGet k' (mapDel k l) = if k' = k then none else mapGet k' l := by
  induction l with
  | nil => simp [mapDel, mapGet]
  | cons p rest ih =>
      obtain ⟨k₀, v₀⟩ := p
      by_cases h : k₀ = k
      · subst h
        rw [mapDel, if_pos rfl, ih]
        by_cases h' : k' = k₀
        · simp [h']
        · simp [mapGet, h', Ne.symm h']
      · rw [mapDel, if_neg h, mapGet, ih]
        by_cases h' : k' = k
        · have hne : ¬k₀ = k' := fun hh => h (hh.trans h')
          simp [h', hne, h]
        · simp [mapGet, h']

/-! ### Lemmas about the step relation -/

theorem step_nextID (s : Store) (op : Op) :
    ((step s op).1).nextID = if createOk op then s.nextID + 1 else s.nextID := by
  cases op with
  | list m => simp [step, getTodosHandler, createOk]
  | create m b =>
      by_cases hm : m = "POST"
      · subst hm
        cases hd : decodeBody b <;> simp [step, createTodoHandler, createOk, hd]
      · simp [step, createTodoHandler, createOk, hm]
  | update m q =>
      simp only [step, updateTodoHandler, createOk, Bool.false_eq_true, if_false]
      split
      · rfl
      · split
        · rfl
        · split
          · rfl
          · split <;> rfl
  | delete m q =>
      simp only [step, deleteTodoHandler, createOk, Bool.false_eq_true, if_false]
      split
      · rfl
      · split
        · rfl
        · split
          · rfl
          · split <;> rfl

theorem step_nextID_le (s : Store) (op : Op) :
    s.nextID ≤ ((step s op).1).nextID := by
  rw [step_nextID]
  split <;> omega

theorem run_nextID_le (ops : List Op) (s : Store) :
    s.nextID ≤ (run s ops).nextID := by
  induction ops generalizing s with
  | nil => exact le_refl _
  | cons op ops ih =>
      exact le_trans (step_nextID_le s op) (ih (step s op).1)

/-- Case analysis on what one request does to the map: nothing, a create
insert under `nextID`, an update write-back of an existing entry with
`Done := true`, or a delete. -/
theorem step_todos_cases (s : Store) (op : Op) :
    ((step s op).1).todos = s.todos
    ∨ (createOk op = true ∧ ∃ t : Todo, t.ID = s.nextID ∧ t.Done = false ∧
        ((step s op).1).todos = mapSet s.nextID t s.todos)
    ∨ (∃ (id : Int) (todo : Todo), mapGet id s.todos = some todo ∧
        ((step s op).1).todos = mapSet id { todo with Done := true } s.todos)
    ∨ (∃ id : Int, ((step s op).1).todos = mapDel id s.todos) := by
  cases op with
  | list m => left; rfl
  | create m b =>
      by_cases hm : m = "POST"
      · subst hm
        cases hd : decodeBody b with
        | none => left; simp [step, createTodoHandler, hd]
        | some req =>
            right; left
            exact ⟨by simp [createOk, hd], ⟨s.nextID, req.Title, false⟩, rfl, rfl,
              by simp [step, createTodoHandler, hd]⟩
      · left; simp [step, createTodoHandler, hm]
  | update m q =>
      by_cases hm : m = "PUT"
      · subst hm
        by_cases he : q.getD "" = ""
        · left; simp [step, updateTodoHandler, he]
        · cases ha : atoi (q.getD "") with
          | none => left; simp [step, updateTodoHandler, he, ha]
          | some id =>
              cases hg : mapGet id s.todos with
              | none => left; simp [step, updateTodoHandler, he, ha, hg]
              | some todo =>
                  right; right; left
                  exact ⟨id, todo, hg, by simp [step, updateTodoHandler, he, ha, hg]⟩
      · left; simp [step, updateTodoHandler, hm]
  | delete m q =>
      by_cases hm : m = "DELETE"
      · subst hm
        by_cases he : q.getD "" = ""
        · left; simp [step, deleteTodoHandler, he]
        · cases ha : atoi (q.getD "") with
          | none => left; simp [step, deleteTodoHandler, he, ha]
          | some id =>
              cases hg : mapGet id s.todos with
              | none => left; simp [step, deleteTodoHandler, he, ha, hg]
              | some todo =>
                  right; right; right
                  exact ⟨id, by simp [step, deleteTodoHandler, he, ha, hg]⟩
      · left; simp [step, deleteTodoHandler, hm]

/-! ### Issued ids along a trace -/

theorem issued_ge (ops : List Op) :
    ∀ s : Store, ∀ id ∈ issuedFrom s ops, s.nextID ≤ id := by
  induction ops with
  | nil => intro s id h; simp [issuedFrom] at h
  | cons op ops ih =>
      intro s id h
      simp only [issuedFrom, List.mem_append] at h
      rcases h with h | h
      · by_cases hc : createOk op
        · simp only [hc, if_pos, List.mem_singleton] at h
          exact le_of_eq h.symm
        · simp [hc] at h
      · exact le_trans (step_nextID_le s op) (ih _ id h)

theorem issued_lt_run (ops : List Op) :
    ∀ s : Store, ∀ id ∈ issuedFrom s ops, id < (run s ops).nextID := by
  induction ops with
  | nil => intro s id h; simp [issuedFrom] at h
  | cons op ops ih =>
      intro s id h
      simp only [issuedFrom, List.mem_append] at h
      show id < (run (step s op).1 ops).nextID
      rcases h with h | h
      · by_cases hc : createOk op
        · simp only [hc, if_pos, List.mem_singleton] at h
          subst h
          have h1 : ((step s op).1).nextID = s.nextID + 1 := by
            rw [step_nextID, if_pos hc]
          have h2 := run_nextID_le ops (step s op).1
          omega
        · simp [hc] at h
      · exact ih _ id h

theorem issued_sorted (ops : List Op) :
    ∀ s : Store, (issuedFrom s ops).Sorted (· < ·) := by
  induction ops with
  | nil => intro s; simp [issuedFrom]
  | cons op ops ih =>
      intro s
      by_cases hc : createOk op
      · simp only [issuedFrom, hc, if_pos, List.singleton_append]
        refine List.sorted_cons.mpr ⟨?_, ih _⟩
        intro b hb
        have h1 := issued_ge ops (step s op).1 b hb
        have h2 : ((step s op).1).nextID = s.nextID + 1 := by
          rw [step_nextID, if_pos hc]
        omega
      · simpa [issuedFrom, hc] using ih (step s op).1

/-! ### Invariants preserved by every request -/

theorem keysBelow_step (s : Store) (op : Op) (h : KeysBelow s) :
    KeysBelow (step s op).1 := by
  intro p hp
  have hle := step_nextID_le s op
  rcases step_todos_cases s op with ht | ⟨hc, t, _, _, ht⟩ | ⟨id, todo, hg, ht⟩ | ⟨id, ht⟩
  · rw [ht] at hp
    have := h p hp
    omega
  · rw [ht] at hp
    have hn : ((step s op).1).nextID = s.nextID + 1 := by rw [step_nextID, if_pos hc]
    rcases mem_mapSet hp with h' | h'
    · rw [h']; simp [hn]
    · have := h p h'; omega
  · rw [ht] at hp
    rcases mem_mapSet hp with h' | h'
    · have hid : id < s.nextID := by simpa using h (id, todo) (mapGet_some_mem hg)
      rw [h']
      show id < ((step s op).1).nextID
      omega
    · have := h p h'; omega
  · rw [ht] at hp
    have := h p (mem_mapDel hp).1
    omega

theorem keysBelow_run (ops : List Op) :
    ∀ s : Store, KeysBelow s → KeysBelow (run s ops) := by
  induction ops with
  | nil => intro s h; exact h
  | cons op ops ih => intro s h; exact ih _ (keysBelow_step s op h)

theorem keysBelow_init : KeysBelow initStore := by
  intro p hp; simp [initStore] at hp

theorem keysBelow_reachable {s : Store} (h : Reachable s) : KeysBelow s := by
  obtain ⟨ops, rfl⟩ := h
  exact keysBelow_run ops initStore keysBelow_init

theorem keyCoherent_step (s : Store) (op : Op) (h : KeyCoherent s) :
    KeyCoherent (step s op).1 := by
  intro p hp
  rcases step_todos_cases s op with ht | ⟨_, t, hID, _, ht⟩ | ⟨id, todo, hg, ht⟩ | ⟨id, ht⟩
  · rw [ht] at hp; exact h p hp
  · rw [ht] at hp
    rcases mem_mapSet hp with h' | h'
    · rw [h']; exact hID
    · exact h p h'
  · rw [ht] at hp
    rcases mem_mapSet hp with h' | h'
    · have hid := h (id, todo) (mapGet_some_mem hg)
      rw [h']
      simpa using hid
    · exact h p h'
  · rw [ht] at hp
    exact h p (mem_mapDel hp).1

theorem keyCoherent_run (ops : List Op) :
    ∀ s : Store, KeyCoherent s → KeyCoherent (run s ops) := by
  induction ops with
  | nil => intro s h; exact h
  | cons op ops ih => intro s h; exact ih _ (keyCoherent_step s op h)

theorem keyCoherent_init : KeyCoherent initStore := by
  intro p hp; simp [initStore] at hp

/-- An object body none of whose keys matches the `title` field decodes
to the zero value `Title = ""`. -/
theorem decodeTitleFields_no_match (fs : List (String × Json)) :
    ∀ acc : String, (∀ p ∈ fs, titleKey p.1 = false) →
      decodeTitleFields fs acc = some acc := by
  induction fs with
  | nil => intro acc _; rfl
  | cons p rest ih =>
      intro acc h
      obtain ⟨k, v⟩ := p
      have hk : titleKey k = false := h (k, v) (List.mem_cons_self _ _)
      have hrest : ∀ p ∈ rest, titleKey p.1 = false :=
        fun p hp => h p (List.mem_cons_of_mem _ hp)
      simp only [decodeTitleFields, hk, Bool.false_eq_true, if_false]
      exact ih acc hrest

/-! ### Claim theorems -/

/-- C1: for every store state and every title that the request body
decodes to (including the empty string; an object body with no
`title`-matching key decodes to `Title = ""`), the create handler
succeeds: it answers 200 with `Todo{id := nextID, title, done := false}`,
stores that todo under key `nextID`, and increments `nextID` by exactly
one. -/
theorem create_always_succeeds (s : Store) (body : Option Json) (title : String)
    (hd : decodeBody body = some ⟨title⟩) :
    createTodoHandler "POST" body s =
      (⟨mapSet s.nextID ⟨s.nextID, title, false⟩ s.todos, s.nextID + 1⟩,
       ⟨200, Body.json (encodeTodo ⟨s.nextID, title, false⟩)⟩)
    ∧ mapGet s.nextID ((createTodoHandler "POST" body s).1).todos =
        some ⟨s.nextID, title, false⟩
    ∧ ((createTodoHandler "POST" body s).1).nextID = s.nextID + 1
    ∧ (∀ fs : List (String × Json), (∀ p ∈ fs, titleKey p.1 = false) →
        decodeCreate (Json.obj fs) = some ⟨""⟩) := by
  have h1 : createTodoHandler "POST" body s =
      (⟨mapSet s.nextID ⟨s.nextID, title, false⟩ s.todos, s.nextID + 1⟩,
       ⟨200, Body.json (encodeTodo ⟨s.nextID, title, false⟩)⟩) := by
    simp [createTodoHandler, hd]
  refine ⟨h1, ?_, ?_, ?_⟩
  · rw [h1]; exact mapGet_mapSet_self _ _ _
  · rw [h1]
  · intro fs h
    simp [decodeCreate, decodeTitleFields_no_match fs "" h]

/-- Witness for C1 at a concrete input: creating `"buy milk"` in the
initial store. -/
theorem create_always_succeeds_witness :
    createTodoHandler "POST" (some (Json.obj [("title", Json.str "buy milk")])) initStore =
      (⟨[(1, ⟨1, "buy milk", false⟩)], 2⟩,
       ⟨200, Body.json (encodeTodo ⟨1, "buy milk", false⟩)⟩)
    ∧ decodeCreate (Json.obj [("other", Json.num 3)]) = some ⟨""⟩ := by
  have h := create_always_succeeds initStore
    (some (Json.obj [("title", Json.str "buy milk")])) "buy milk" (by rfl)
  exact ⟨h.1, h.2.2.2 [("other", Json.num 3)] (by decide)⟩

/-- C2: over every request sequence from the initial state, the ids
returned by successful creates are strictly increasing and pairwise
distinct, every issued id stays strictly below the final `nextID`
(applies to every prefix, since the sequence is arbitrary), and no
request — deletes included — ever decreases `nextID`. -/
theorem create_ids_strictly_increasing (ops : List Op) :
    (issuedFrom initStore ops).Sorted (· < ·)
    ∧ (issuedFrom initStore ops).Nodup
    ∧ (∀ id ∈ issuedFrom initStore ops, id < (run initStore ops).nextID)
    ∧ (∀ (s : Store) (op : Op), s.nextID ≤ ((step s op).1).nextID) :=
  ⟨issued_sorted ops initStore, (issued_sorted ops initStore).nodup,
   issued_lt_run ops initStore, step_nextID_le⟩

/-- Witness for C2 on a concrete trace: create, delete the todo, create
again — the second create still receives the fresh id 2. -/
theorem create_ids_strictly_increasing_witness :
    issuedFrom initStore
        [Op.create "POST" (some (Json.obj [])), Op.delete "DELETE" (some "1"),
         Op.create "POST" (some (Json.obj []))] = [1, 2]
    ∧ (1 : Int) <
        (run initStore
          [Op.create "POST" (some (Json.obj [])), Op.delete "DELETE" (some "1"),
           Op.create "POST" (some (Json.obj []))]).nextID := by
  refine ⟨by decide, ?_⟩
  exact (create_ids_strictly_increasing
    [Op.create "POST" (some (Json.obj [])), Op.delete "DELETE" (some "1"),
     Op.create "POST" (some (Json.obj []))]).2.2.1 1 (by decide)

/-- C3: the update handler is idempotent on any id present in the map:
the first PUT answers 200 with the todo marked done, and a second PUT
with the same id produces exactly the same store state and the same
response. -/
theorem markDone_idempotent (s : Store) (idStr : String) (id : Int) (t : Todo)
    (ha : atoi idStr = some id) (hg : mapGet id s.todos = some t) :
    (updateTodoHandler "PUT" (some idStr) s).2 =
      ⟨200, Body.json (encodeTodo { t with Done := true })⟩
    ∧ updateTodoHandler "PUT" (some idStr)
        ((updateTodoHandler "PUT" (some idStr) s).1) =
      updateTodoHandler "PUT" (some idStr) s := by
  have hne : ¬idStr = "" := by
    intro h; rw [h] at ha; simp [atoi] at ha
  constructor
  · simp [updateTodoHandler, hne, ha, hg]
  · simp [updateTodoHandler, hne, ha, hg, mapGet_mapSet_self, mapSet_mapSet_self]

/-- Witness for C3: marking todo 1 done twice in a concrete store. -/
theorem markDone_idempotent_witness :
    updateTodoHandler "PUT" (some "1")
        ((updateTodoHandler "PUT" (some "1") ⟨[(1, ⟨1, "a", false⟩)], 2⟩).1) =
      updateTodoHandler "PUT" (some "1") ⟨[(1, ⟨1, "a", false⟩)], 2⟩ :=
  (markDone_idempotent ⟨[(1, ⟨1, "a", false⟩)], 2⟩ "1" 1 ⟨1, "a", false⟩
    (by decide) (by decide)).2

/-- C4: with the correct method on `/todos/update` and `/todos/delete`,
a missing (hence empty) `id` query parameter answers 400, a
non-`Atoi`-parseable `id` answers 400, and a parsed id absent from the
map answers 404 — and in every one of these cases the returned store is
exactly the input store (map and `nextID` untouched). -/
theorem update_delete_error_cases (s : Store) (idq : Option String) :
    (idq.getD "" = "" →
        updateTodoHandler "PUT" idq s = (s, ⟨400, Body.empty⟩)
        ∧ deleteTodoHandler "DELETE" idq s = (s, ⟨400, Body.empty⟩))
    ∧ (atoi (idq.getD "") = none →
        updateTodoHandler "PUT" idq s = (s, ⟨400, Body.empty⟩)
        ∧ deleteTodoHandler "DELETE" idq s = (s, ⟨400, Body.empty⟩))
    ∧ (∀ id : Int, atoi (idq.getD "") = some id → mapGet id s.todos = none →
        updateTodoHandler "PUT" idq s = (s, ⟨404, Body.empty⟩)
        ∧ deleteTodoHandler "DELETE" idq s = (s, ⟨404, Body.empty⟩)) := by
  refine ⟨?_, ?_, ?_⟩
  · intro he
    constructor <;> simp [updateTodoHandler, deleteTodoHandler, he]
  · intro ha
    by_cases he : idq.getD "" = ""
    · constructor <;> simp [updateTodoHandler, deleteTodoHandler, he]
    · constructor <;> simp [updateTodoHandler, deleteTodoHandler, he, ha]
  · intro id ha hg
    have he : ¬idq.getD "" = "" := by
      intro h; rw [h] at ha; simp [atoi] at ha
    constructor <;> simp [updateTodoHandler, deleteTodoHandler, he, ha, hg]

/-- Witness for C4 at concrete inputs: missing parameter, non-integer
parameter, and an id absent from the (initial) store. -/
theorem update_delete_error_cases_witness :
    (updateTodoHandler "PUT" none initStore = (initStore, ⟨400, Body.empty⟩)
      ∧ deleteTodoHandler "DELETE" none initStore = (initStore, ⟨400, Body.empty⟩))
    ∧ (updateTodoHandler "PUT" (some "abc") initStore = (initStore, ⟨400, Body.empty⟩)
      ∧ deleteTodoHandler "DELETE" (some "abc") initStore = (initStore, ⟨400, Body.empty⟩))
    ∧ (updateTodoHandler "PUT" (some "5") initStore = (initStore, ⟨404, Body.empty⟩)
      ∧ deleteTodoHandler "DELETE" (some "5") initStore = (initStore, ⟨404, Body.empty⟩)) :=
  ⟨(update_delete_error_cases initStore none).1 (by decide),
   (update_delete_error_cases initStore (some "abc")).2.1 (by decide),
   (update_delete_error_cases initStore (some "5")).2.2 5 (by decide) (by decide)⟩

/-- C5: along any reachable state, a todo whose `Done` field is `true`
never reverts: after any further request, if the id is still present,
its `Done` field is still `true`. -/
theorem done_never_reverts (s : Store) (hs : Reachable s) (op : Op)
    (id : Int) (t : Todo) (hg : mapGet id s.todos = some t) (hd : t.Done = true)
    (t' : Todo) (hg' : mapGet id ((step s op).1).todos = some t') :
    t'.Done = true := by
  have hkb := keysBelow_reachable hs
  rcases step_todos_cases s op with ht | ⟨hc, tn, hID, hDone, ht⟩ |
    ⟨id₀, todo, hg₀, ht⟩ | ⟨id₀, ht⟩
  · rw [ht, hg] at hg'
    injection hg' with h; subst h; exact hd
  · rw [ht] at hg'
    have hid : id < s.nextID := by simpa using hkb (id, t) (mapGet_some_mem hg)
    have hne : id ≠ s.nextID := by omega
    rw [mapGet_mapSet_ne _ _ _ _ hne, hg] at hg'
    injection hg' with h; subst h; exact hd
  · rw [ht] at hg'
    by_cases h0 : id = id₀
    · subst h0
      rw [mapGet_mapSet_self] at hg'
      injection hg' with h; subst h; rfl
    · rw [mapGet_mapSet_ne _ _ _ _ h0, hg] at hg'
      injection hg' with h; subst h; exact hd
  · rw [ht, mapGet_mapDel] at hg'
    by_cases h0 : id = id₀
    · simp [h0] at hg'
    · rw [if_neg h0, hg] at hg'
      injection hg' with h; subst h; exact hd

/-- Witness for C5: reach a store with todo 1 done, hit it with a
further create, and observe `Done` still `true`. -/
theorem done_never_reverts_witness :
    (⟨1, "", true⟩ : Todo).Done = true :=
  done_never_reverts
    (run initStore [Op.create "POST" (some (Json.obj [])), Op.update "PUT" (some "1")])
    ⟨[Op.create "POST" (some (Json.obj [])), Op.update "PUT" (some "1")], rfl⟩
    (Op.create "POST" (some (Json.obj [])))
    1 ⟨1, "", true⟩ (by decide) (by decide)
    ⟨1, "", true⟩ (by decide)

/-- C6: deleting an id present in the map answers 204 with an empty
body, removes exactly that entry (every other key reads unchanged,
`nextID` unchanged), the resulting map holds no entry with that id (so
a subsequent list excludes it), and a second delete of the same id
answers 404 leaving the store unchanged. -/
theorem delete_removes_exactly (s : Store) (idStr : String) (id : Int) (t : Todo)
    (ha : atoi idStr = some id) (hg : mapGet id s.todos = some t) :
    deleteTodoHandler "DELETE" (some idStr) s =
      (⟨mapDel id s.todos, s.nextID⟩, ⟨204, Body.empty⟩)
    ∧ (∀ k : Int, mapGet k (mapDel id s.todos) =
        if k = id then none else mapGet k s.todos)
    ∧ (∀ p ∈ mapDel id s.todos, p.1 ≠ id)
    ∧ deleteTodoHandler "DELETE" (some idStr) ⟨mapDel id s.todos, s.nextID⟩ =
        (⟨mapDel id s.todos, s.nextID⟩, ⟨404, Body.empty⟩) := by
  have hne : ¬idStr = "" := by
    intro h; rw [h] at ha; simp [atoi] at ha
  refine ⟨?_, fun k => mapGet_mapDel id k s.todos,
    fun p hp => (mem_mapDel hp).2, ?_⟩
  · simp [deleteTodoHandler, hne, ha, hg]
  · have hnone : mapGet id (mapDel id s.todos) = none := by
      rw [mapGet_mapDel]; simp
    simp [deleteTodoHandler, hne, ha, hnone]

/-- Witness for C6: deleting todo 1 from a two-todo store. -/
theorem delete_removes_exactly_witness :
    deleteTodoHandler "DELETE" (some "1")
        ⟨[(1, ⟨1, "a", false⟩), (2, ⟨2, "b", true⟩)], 3⟩ =
      (⟨[(2, ⟨2, "b", true⟩)], 3⟩, ⟨204, Body.empty⟩)
    ∧ deleteTodoHandler "DELETE" (some "1") ⟨[(2, ⟨2, "b", true⟩)], 3⟩ =
        (⟨[(2, ⟨2, "b", true⟩)], 3⟩, ⟨404, Body.empty⟩) :=
  ⟨(delete_removes_exactly ⟨[(1, ⟨1, "a", false⟩), (2, ⟨2, "b", true⟩)], 3⟩
      "1" 1 ⟨1, "a", false⟩ (by decide) (by decide)).1,
   (delete_removes_exactly ⟨[(1, ⟨1, "a", false⟩), (2, ⟨2, "b", true⟩)], 3⟩
      "1" 1 ⟨1, "a", false⟩ (by decide) (by decide)).2.2.2⟩

/-- C7: the `/todos` handler performs no method check: every method
answers 200 with the store unchanged and the body the JSON object
keyed by the string-encoded ids (every stored todo appears under its
stringified id); an empty store yields the empty object, rendered
`"\x7b\x7d"`. -/
theorem list_any_method (method : String) (s : Store) :
    getTodosHandler method s = (s, ⟨200, Body.json (encodeTodos s.todos)⟩)
    ∧ (∃ fields : List (String × Json), encodeTodos s.todos = Json.obj fields
        ∧ ∀ p ∈ s.todos, (toString p.1, encodeTodo p.2) ∈ fields)
    ∧ (s.todos = [] →
        encodeTodos s.todos = Json.obj [] ∧ renderJson (Json.obj []) = "\x7b\x7d") := by
  refine ⟨rfl, ⟨_, rfl, ?_⟩, ?_⟩
  · intro p hp
    rw [List.mem_mergeSort]
    exact List.mem_map_of_mem _ hp
  · intro he
    rw [he]
    exact ⟨by simp [encodeTodos], rfl⟩

/-- Witness for C7: a PUT request to `/todos` on the empty store still
answers 200 with the empty JSON object. -/
theorem list_any_method_witness :
    getTodosHandler "PUT" initStore =
      (initStore, ⟨200, Body.json (Json.obj [])⟩)
    ∧ renderJson (Json.obj []) = "\x7b\x7d" := by
  have h := list_any_method "PUT" initStore
  have he := h.2.2 rfl
  exact ⟨by rw [h.1, he.1], he.2⟩

/-- C8 counterexample: the claim demands 405 for a wrong method on
every route, including GET-only `/todos`; but the `/todos` handler has
no method check, so a POST to `/todos` answers 200, not 405. -/
theorem wrong_method_counterexample :
    (getTodosHandler "POST" initStore).2.status = 200
    ∧ (getTodosHandler "POST" initStore).2.status ≠ 405 :=
  ⟨rfl, by decide⟩

/-- C8 (amended): on the three method-checked routes — `/todos/create`
(POST), `/todos/update` (PUT), `/todos/delete` (DELETE) — any other
method answers 405 with an empty body and the store exactly unchanged;
`/todos` has no method check and is exempt. -/
theorem wrong_method_405 (m : String) (body : Option Json) (idq : Option String)
    (s : Store) :
    (m ≠ "POST" → createTodoHandler m body s = (s, ⟨405, Body.empty⟩))
    ∧ (m ≠ "PUT" → updateTodoHandler m idq s = (s, ⟨405, Body.empty⟩))
    ∧ (m ≠ "DELETE" → deleteTodoHandler m idq s = (s, ⟨405, Body.empty⟩)) := by
  refine ⟨fun h => ?_, fun h => ?_, fun h => ?_⟩
  · simp [createTodoHandler, h]
  · simp [updateTodoHandler, h]
  · simp [deleteTodoHandler, h]

/-- Witness for the amended C8: GET requests against the three
method-checked routes on the initial store. -/
theorem wrong_method_405_witness :
    createTodoHandler "GET" none initStore = (initStore, ⟨405, Body.empty⟩)
    ∧ updateTodoHandler "GET" none initStore = (initStore, ⟨405, Body.empty⟩)
    ∧ deleteTodoHandler "GET" none initStore = (initStore, ⟨405, Body.empty⟩) :=
  ⟨(wrong_method_405 "GET" none none initStore).1 (by decide),
   (wrong_method_405 "GET" none none initStore).2.1 (by decide),
   (wrong_method_405 "GET" none none initStore).2.2 (by decide)⟩

/-- C10: the key-coherence invariant `todos[k].ID = k` holds in the
initial store, is preserved by every request, and therefore holds in
every reachable store state. -/
theorem key_coherence_invariant :
    KeyCoherent initStore
    ∧ (∀ (s : Store) (op : Op), KeyCoherent s → KeyCoherent (step s op).1)
    ∧ (∀ s : Store, Reachable s → KeyCoherent s) := by
  refine ⟨keyCoherent_init, keyCoherent_step, ?_⟩
  rintro s ⟨ops, rfl⟩
  exact keyCoherent_run ops initStore keyCoherent_init

/-- Witness for C10: preservation applied to a concrete coherent store
and a concrete update request. -/
theorem key_coherence_invariant_witness :
    KeyCoherent (step ⟨[(1, ⟨1, "a", false⟩)], 2⟩ (Op.update "PUT" (some "1"))).1 :=
  key_coherence_invariant.2.1 ⟨[(1, ⟨1, "a", false⟩)], 2⟩
    (Op.update "PUT" (some "1")) (by intro p hp; simp at hp; simp [hp])

end TodoApp
